import Mathlib

/-!
Verification of the Cuble cube-state engine: facelet projection,
state generation, picker operations, adjacency navigation.
Definitions are shallow embeddings of the JavaScript source
(`cube3d.js` and the main module).
-/

namespace Cuble

/-- Piece names in state order (`Cube3D.CUBIE_ORDER`): 12 edges then 8 corners. -/
def CUBIE_ORDER : List (List Char) :=
  [['U','F'], ['U','R'], ['U','B'], ['U','L'],
   ['D','F'], ['D','R'], ['D','B'], ['D','L'],
   ['F','R'], ['F','L'], ['B','R'], ['B','L'],
   ['U','F','R'], ['U','R','B'], ['U','B','L'], ['U','L','F'],
   ['D','R','F'], ['D','F','L'], ['D','L','B'], ['D','B','R']]

/-- `Cube3D.getStateIndex(cubie)`: index of a piece name in `CUBIE_ORDER`. -/
def getStateIndex (cubie : List Char) : Nat := CUBIE_ORDER.indexOf cubie

/-- The `FACELETS` table from `stateToFaceletColors`: for each face, the nine
defining piece names of its facelets in row order. -/
def FACELETS (face : Char) : List (List Char) :=
  if face = 'U' then
    [['U','B','L'], ['U','B'], ['U','R','B'], ['U','L'], ['U'], ['U','R'],
     ['U','L','F'], ['U','F'], ['U','F','R']]
  else if face = 'L' then
    [['U','B','L'], ['U','L'], ['U','L','F'], ['B','L'], ['L'], ['F','L'],
     ['D','L','B'], ['D','L'], ['D','F','L']]
  else if face = 'F' then
    [['U','L','F'], ['U','F'], ['U','F','R'], ['F','L'], ['F'], ['F','R'],
     ['D','F','L'], ['D','F'], ['D','R','F']]
  else if face = 'R' then
    [['U','F','R'], ['U','R'], ['U','R','B'], ['F','R'], ['R'], ['B','R'],
     ['D','R','F'], ['D','R'], ['D','B','R']]
  else if face = 'B' then
    [['U','R','B'], ['U','B'], ['U','B','L'], ['B','R'], ['B'], ['B','L'],
     ['D','B','R'], ['D','B'], ['D','L','B']]
  else if face = 'D' then
    [['D','F','L'], ['D','F'], ['D','R','F'], ['D','L'], ['D'], ['D','R'],
     ['D','L','B'], ['D','B'], ['D','B','R']]
  else []

/-- The face iteration order `'ULFRBD'` of `stateToFaceletColors`. -/
def FACE_ORDER : List Char := ['U', 'L', 'F', 'R', 'B', 'D']

/-- The color of one non-center facelet, as computed by the body of the inner
loop of `stateToFaceletColors`, given the occupying piece `p` and the slot
orientation `o`.  (JS `charAt` on an out-of-range piece id is a crash; here
the piece-name lookup totalises to `[]`, which no in-range claim exercises.) -/
def pieceColor (face : Char) (facelet : List Char) (p o : Nat) : Char :=
  let name := CUBIE_ORDER.getD p []
  let base := facelet.indexOf face
  let ao := if facelet.length = 2 then base + o else base + (3 - o)
  name.getD (ao % name.length) ' '

/-- One entry pushed by `stateToFaceletColors`: the facelet's own (single)
character for centers, otherwise the orientation-adjusted piece character. -/
def faceletColor (perm ori : Nat → Nat) (face : Char) (facelet : List Char) : Char :=
  if facelet.length = 1 then facelet.headD ' '
  else pieceColor face facelet (perm (getStateIndex facelet)) (ori (getStateIndex facelet))

/-- `stateToFaceletColors`: the 54 facelet colors in face order U,L,F,R,B,D. -/
def stateToFaceletColors (perm ori : Nat → Nat) : List Char :=
  FACE_ORDER.flatMap fun face => (FACELETS face).map (faceletColor perm ori face)

/-! ### Role-correctness and orientation-range predicates for complete states -/

/-- Edge slots (0..11) hold edge piece ids (0..11). -/
def EdgeSlotsOK (perm : Nat → Nat) : Prop := ∀ i, i < 12 → perm i < 12

/-- Corner slots (12..19) hold corner piece ids (12..19). -/
def CornerSlotsOK (perm : Nat → Nat) : Prop :=
  ∀ i, i < 20 → 12 ≤ i → 12 ≤ perm i ∧ perm i < 20

/-- Edge orientations in {0,1}, corner orientations in {0,1,2}. -/
def OriOK (ori : Nat → Nat) : Prop :=
  (∀ i, i < 12 → ori i < 2) ∧ (∀ i, i < 20 → 12 ≤ i → ori i < 3)

/-- The color of a facelet as the specification claim words it: the fixed face
letter for centers; for an edge facelet the occupying piece name's character at
`(facelet.indexOf face + orientation) mod nameLength`; for a corner facelet the
character at `(facelet.indexOf face + (3 - orientation)) mod 3`. -/
def claimColor (perm ori : Nat → Nat) (face : Char) (facelet : List Char) : Char :=
  if facelet.length = 1 then face
  else
    let name := CUBIE_ORDER.getD (perm (getStateIndex facelet)) []
    let base := facelet.indexOf face
    if facelet.length = 2 then
      name.getD ((base + ori (getStateIndex facelet)) % name.length) ' '
    else
      name.getD ((base + (3 - ori (getStateIndex facelet))) % 3) ' '

/-- The 54 colors as the claim describes them. -/
def claimProjection (perm ori : Nat → Nat) : List Char :=
  FACE_ORDER.flatMap fun face => (FACELETS face).map (claimColor perm ori face)

/-- Structural facts about the facelet tables, checked by computation:
each face has 9 facelets; position 4 is the lone single-letter (center) facelet
and names the face itself; edge facelets map to edge slots and corner facelets
to corner slots via `getStateIndex`. -/
def faceletTablesOK : Prop :=
  ∀ face ∈ FACE_ORDER,
    (FACELETS face).length = 9 ∧
    (FACELETS face).getD 4 [] = [face] ∧
    (∀ j, j < 9 → j ≠ 4 → ((FACELETS face).getD j []).length ≠ 1) ∧
    ∀ fl ∈ FACELETS face,
      (fl.length = 1 → fl = [face]) ∧
      (fl.length = 2 → getStateIndex fl < 12) ∧
      (fl.length = 3 → 12 ≤ getStateIndex fl ∧ getStateIndex fl < 20) ∧
      (fl.length = 1 ∨ fl.length = 2 ∨ fl.length = 3)

instance : Decidable faceletTablesOK := by unfold faceletTablesOK; infer_instance

lemma faceletTables_ok : faceletTablesOK := by decide

/-- Every edge piece id names a 2-letter piece, every corner id a 3-letter one. -/
lemma cubieOrder_len :
    (∀ p, p < 12 → (CUBIE_ORDER.getD p []).length = 2) ∧
    (∀ p, p < 20 → 12 ≤ p → (CUBIE_ORDER.getD p []).length = 3) := by decide

lemma flatMap_congr {α β : Type} {l : List α} {f g : α → List β}
    (h : ∀ a ∈ l, f a = g a) : l.flatMap f = l.flatMap g := by
  induction l with
  | nil => rfl
  | cons a t ih =>
      simp only [List.flatMap_cons]
      rw [h a (List.mem_cons_self a t), ih fun x hx => h x (List.mem_cons_of_mem a hx)]

/-- Pointwise agreement of the source projector with the claim's formula. -/
lemma faceletColor_eq_claimColor (perm ori : Nat → Nat)
    (hc : CornerSlotsOK perm) (face : Char) (fl : List Char)
    (hface : face ∈ FACE_ORDER) (hfl : fl ∈ FACELETS face) :
    faceletColor perm ori face fl = claimColor perm ori face fl := by
  obtain ⟨_, _, _, hall⟩ := faceletTables_ok face hface
  obtain ⟨h1, h2, h3, hlen⟩ := hall fl hfl
  rcases hlen with hl | hl | hl
  · simp [faceletColor, claimColor, hl, h1 hl]
  · simp [faceletColor, claimColor, pieceColor, hl]
  · obtain ⟨hi1, hi2⟩ := h3 hl
    obtain ⟨hp1, hp2⟩ := hc _ hi2 hi1
    have hname := cubieOrder_len.2 _ hp2 hp1
    simp only [List.getD_eq_getElem?_getD] at hname
    simp [faceletColor, claimColor, pieceColor, hl, hname]

/-- C1: for every complete role-correct state, the projector returns the 54
colors in face order U,L,F,R,B,D, each center facelet (position 4 of its face)
being the fixed face letter and each non-center facelet being the occupying
piece's name character at the orientation-adjusted index — edges at
`(indexOf face + ori) mod nameLength`, corners at
`(indexOf face + (3 - ori)) mod 3`. -/
theorem stateToFaceletColors_matches_claim (perm ori : Nat → Nat)
    (_he : EdgeSlotsOK perm) (hc : CornerSlotsOK perm) (_ho : OriOK ori) :
    stateToFaceletColors perm ori = claimProjection perm ori ∧ faceletTablesOK := by
  refine ⟨?_, faceletTables_ok⟩
  unfold stateToFaceletColors claimProjection
  exact flatMap_congr fun face hface =>
    List.map_congr_left fun fl hfl =>
      faceletColor_eq_claimColor perm ori hc face fl hface hfl

/-- Witness for C1 at the solved state. -/
theorem stateToFaceletColors_matches_claim_witness :
    stateToFaceletColors (fun i => i) (fun _ => 0)
      = claimProjection (fun i => i) (fun _ => 0) ∧ faceletTablesOK :=
  stateToFaceletColors_matches_claim (fun i => i) (fun _ => 0)
    (fun _ h => h) (fun _ h1 h2 => ⟨h2, h1⟩)
    ⟨fun _ _ => Nat.succ_pos 1, fun _ _ _ => Nat.succ_pos 2⟩

/-! ### C2: the projector is injective on complete role-correct states -/

/-- For each slot, the (face, facelet) positions whose color is produced from
that slot; two for edge slots, three for corner slots.  (Each sticker of a
piece shows on exactly one face.) -/
def slotFacelets : Nat → List (Char × List Char)
  | 0 => [('U', ['U','F']), ('F', ['U','F'])]
  | 1 => [('U', ['U','R']), ('R', ['U','R'])]
  | 2 => [('U', ['U','B']), ('B', ['U','B'])]
  | 3 => [('U', ['U','L']), ('L', ['U','L'])]
  | 4 => [('F', ['D','F']), ('D', ['D','F'])]
  | 5 => [('R', ['D','R']), ('D', ['D','R'])]
  | 6 => [('B', ['D','B']), ('D', ['D','B'])]
  | 7 => [('L', ['D','L']), ('D', ['D','L'])]
  | 8 => [('F', ['F','R']), ('R', ['F','R'])]
  | 9 => [('L', ['F','L']), ('F', ['F','L'])]
  | 10 => [('R', ['B','R']), ('B', ['B','R'])]
  | 11 => [('L', ['B','L']), ('B', ['B','L'])]
  | 12 => [('U', ['U','F','R']), ('F', ['U','F','R']), ('R', ['U','F','R'])]
  | 13 => [('U', ['U','R','B']), ('R', ['U','R','B']), ('B', ['U','R','B'])]
  | 14 => [('U', ['U','B','L']), ('L', ['U','B','L']), ('B', ['U','B','L'])]
  | 15 => [('U', ['U','L','F']), ('L', ['U','L','F']), ('F', ['U','L','F'])]
  | 16 => [('F', ['D','R','F']), ('R', ['D','R','F']), ('D', ['D','R','F'])]
  | 17 => [('L', ['D','F','L']), ('F', ['D','F','L']), ('D', ['D','F','L'])]
  | 18 => [('L', ['D','L','B']), ('B', ['D','L','B']), ('D', ['D','L','B'])]
  | 19 => [('R', ['D','B','R']), ('B', ['D','B','R']), ('D', ['D','B','R'])]
  | _ => []

/-- The colors a slot's occupant `p` with orientation `o` shows on the cube. -/
def stickerTuple (i p o : Nat) : List Char :=
  (slotFacelets i).map fun q => pieceColor q.1 q.2 p o

/-- All legal (piece, orientation) pairs for a slot. -/
def validPairs (i : Nat) : List (Nat × Nat) :=
  if i < 12 then (List.range 12).flatMap fun p => (List.range 2).map fun o => (p, o)
  else (List.range' 12 8).flatMap fun p => (List.range 3).map fun o => (p, o)

/-- Each slot's occurrence list is nonempty, canonical and correctly indexed. -/
lemma slotFacelets_facts : ∀ i, i < 20 →
    slotFacelets i ≠ [] ∧
    ∀ q ∈ slotFacelets i, q.1 ∈ FACE_ORDER ∧ q.2 ∈ FACELETS q.1 ∧
      getStateIndex q.2 = i ∧ q.2.length ≠ 1 := by decide

/-- Distinct legal (piece, orientation) pairs always show distinct sticker
tuples: the core injectivity fact, checked exhaustively. -/
lemma stickerTuple_nodup : ∀ i, i < 20 →
    ((validPairs i).map fun q => stickerTuple i q.1 q.2).Nodup := by decide

lemma mem_validPairs_edge {i p o : Nat} (hi : i < 12) (hp : p < 12) (ho : o < 2) :
    (p, o) ∈ validPairs i := by
  simp only [validPairs, if_pos hi, List.mem_flatMap, List.mem_map, List.mem_range]
  exact ⟨p, hp, o, ho, rfl⟩

lemma mem_validPairs_corner {i p o : Nat} (hi : ¬ i < 12)
    (hp1 : 12 ≤ p) (hp2 : p < 20) (ho : o < 3) :
    (p, o) ∈ validPairs i := by
  simp only [validPairs, if_neg hi, List.mem_flatMap, List.mem_map,
    List.mem_range, List.mem_range'_1]
  exact ⟨p, ⟨hp1, by omega⟩, o, ho, rfl⟩

/-- Splitting a flatMap-of-maps equality into pointwise equalities. -/
lemma flatMap_map_inj {α β γ : Type} (L : List α) (F : α → List β) (f g : α → β → γ)
    (h : (L.flatMap fun a => (F a).map (f a)) = L.flatMap fun a => (F a).map (g a)) :
    ∀ a ∈ L, ∀ b ∈ F a, f a b = g a b := by
  induction L with
  | nil => intro a ha; exact absurd ha (List.not_mem_nil a)
  | cons x t ih =>
      simp only [List.flatMap_cons] at h
      obtain ⟨h1, h2⟩ := List.append_inj h (by simp)
      intro a ha b hb
      rcases List.mem_cons.mp ha with rfl | ha'
      · exact List.map_inj_left.mp h1 b hb
      · exact ih h2 a ha' b hb

/-- The projector looks at the state only through the slot of each facelet. -/
lemma faceletColor_congr (pa oa pb ob : Nat → Nat) (face : Char) (fl : List Char)
    (hidx : pa (getStateIndex fl) = pb (getStateIndex fl) ∧
            oa (getStateIndex fl) = ob (getStateIndex fl)) :
    faceletColor pa oa face fl = faceletColor pb ob face fl := by
  unfold faceletColor
  rw [hidx.1, hidx.2]

/-- C2: two complete role-correct states project to identical 54-color lists
iff their permutation and orientation arrays agree on all 20 slots — the
facelet-equality win test of `check()` coincides with state equality. -/
theorem facelets_equal_iff_states_equal (pa oa pb ob : Nat → Nat)
    (hea : EdgeSlotsOK pa) (hca : CornerSlotsOK pa) (hoa : OriOK oa)
    (heb : EdgeSlotsOK pb) (hcb : CornerSlotsOK pb) (hob : OriOK ob) :
    stateToFaceletColors pa oa = stateToFaceletColors pb ob ↔
      ((∀ i, i < 20 → pa i = pb i) ∧ (∀ i, i < 20 → oa i = ob i)) := by
  constructor
  · intro h
    have hpt : ∀ face ∈ FACE_ORDER, ∀ fl ∈ FACELETS face,
        faceletColor pa oa face fl = faceletColor pb ob face fl :=
      flatMap_map_inj FACE_ORDER FACELETS _ _ h
    have key : ∀ i, i < 20 → pa i = pb i ∧ oa i = ob i := by
      intro i hi
      obtain ⟨hne, hq⟩ := slotFacelets_facts i hi
      have htup : stickerTuple i (pa i) (oa i) = stickerTuple i (pb i) (ob i) := by
        unfold stickerTuple
        refine List.map_congr_left fun q hq' => ?_
        obtain ⟨hf, hfl, hgi, hlen⟩ := hq q hq'
        have h1 : pieceColor q.1 q.2 (pa i) (oa i) = faceletColor pa oa q.1 q.2 := by
          unfold faceletColor; rw [if_neg hlen, hgi]
        have h2 : pieceColor q.1 q.2 (pb i) (ob i) = faceletColor pb ob q.1 q.2 := by
          unfold faceletColor; rw [if_neg hlen, hgi]
        rw [h1, h2]
        exact hpt q.1 hf q.2 hfl
      have hmema : (pa i, oa i) ∈ validPairs i := by
        by_cases hi12 : i < 12
        · exact mem_validPairs_edge hi12 (hea i hi12) (hoa.1 i hi12)
        · exact mem_validPairs_corner hi12 (hca i hi (by omega)).1 (hca i hi (by omega)).2
            (hoa.2 i hi (by omega))
      have hmemb : (pb i, ob i) ∈ validPairs i := by
        by_cases hi12 : i < 12
        · exact mem_validPairs_edge hi12 (heb i hi12) (hob.1 i hi12)
        · exact mem_validPairs_corner hi12 (hcb i hi (by omega)).1 (hcb i hi (by omega)).2
            (hob.2 i hi (by omega))
      have := List.inj_on_of_nodup_map (stickerTuple_nodup i hi) hmema hmemb htup
      exact ⟨congrArg Prod.fst this, congrArg Prod.snd this⟩
    exact ⟨fun i hi => (key i hi).1, fun i hi => (key i hi).2⟩
  · rintro ⟨hp, ho⟩
    unfold stateToFaceletColors
    refine flatMap_congr fun face hface => List.map_congr_left fun fl hfl => ?_
    obtain ⟨_, _, _, hall⟩ := faceletTables_ok face hface
    obtain ⟨h1, h2, h3, hlen⟩ := hall fl hfl
    rcases hlen with hl | hl | hl
    · unfold faceletColor; rw [if_pos hl, if_pos hl]
    · have hidx : getStateIndex fl < 20 := by have := h2 hl; omega
      exact faceletColor_congr pa oa pb ob face fl
        ⟨hp _ hidx, ho _ hidx⟩
    · have hidx : getStateIndex fl < 20 := (h3 hl).2
      exact faceletColor_congr pa oa pb ob face fl
        ⟨hp _ hidx, ho _ hidx⟩

/-- Witness for C2: a solved state against the state with the UF/UR edges
transposed; the projections differ because the permutations do. -/
theorem facelets_equal_iff_states_equal_witness :
    stateToFaceletColors (fun i => i) (fun _ => 0)
        = stateToFaceletColors (fun i => if i = 0 then 1 else if i = 1 then 0 else i)
            (fun _ => 0) ↔
      ((∀ i, i < 20 → (fun i => i) i
          = (fun i => if i = 0 then 1 else if i = 1 then 0 else i) i) ∧
       (∀ i, i < 20 → (fun _ => (0 : Nat)) i = (fun _ => (0 : Nat)) i)) :=
  facelets_equal_iff_states_equal _ _ _ _
    (fun _ h => h) (fun _ h1 h2 => ⟨h2, h1⟩)
    ⟨fun _ _ => Nat.succ_pos 1, fun _ _ _ => Nat.succ_pos 2⟩
    (by unfold EdgeSlotsOK; decide) (by unfold CornerSlotsOK; decide)
    ⟨fun _ _ => Nat.succ_pos 1, fun _ _ _ => Nat.succ_pos 2⟩

/-! ### C4/C5: seeded state generation (`generateCubeState` and `shuffle`)

The seeded generator `seedrandom(seed)` is an external dependency; it is
modelled as a deterministic stream `s : ℕ → ℚ` of values in `[0,1)` (the k-th
call to `rng()` returns `s k`), which is exactly what a fixed seed provides. -/

/-- `Math.floor(rng() * n)` for a draw value `q`. -/
def jsFloor (q : ℚ) (n : ℕ) : ℕ := (⌊q * n⌋).toNat

/-- The in-place swap `temp = a[i]; a[i] = a[j]; a[j] = temp` of `shuffle`. -/
def listSwap (a : List ℤ) (i j : ℕ) : List ℤ :=
  (a.set i (a.getD j 0)).set j (a.getD i 0)

/-- The Fisher–Yates loop of `shuffle`, from index `i` down to 1, consuming one
stream value per step starting at position `k`. -/
def shuffleAux (s : ℕ → ℚ) : ℕ → ℕ → List ℤ → List ℤ × ℕ
  | 0, k, a => (a, k)
  | i + 1, k, a => shuffleAux s i (k + 1) (listSwap a (i + 1) (jsFloor (s k) (i + 2)))

/-- `shuffle(array, rng)`: Fisher–Yates from `array.length - 1` down to 1. -/
def shuffle (s : ℕ → ℚ) (k : ℕ) (a : List ℤ) : List ℤ × ℕ :=
  shuffleAux s (a.length - 1) k a

/-- The edge-slot identities `[0..11]` shuffled by `generateCubeState`. -/
def edgeSlotIds : List ℤ := [0, 1, 2, 3, 4, 5, 6, 7, 8, 9, 10, 11]

/-- The corner-slot identities `[12..19]` shuffled by `generateCubeState`. -/
def cornerSlotIds : List ℤ := [12, 13, 14, 15, 16, 17, 18, 19]

/-- Modelled from the spec: `verifyState` of `lib/solver.js`, which is imported
by the main module but is not under `src/`.  Per spec §4.1 it is true iff the
overall permutation parity is even, the edge orientation sum is ≡ 0 mod 2 and
the corner orientation sum is ≡ 0 mod 3. -/
def verifyState (p o : List ℤ) : Bool :=
  inversions p % 2 == 0 && (o.take 12).sum % 2 == 0 && (o.drop 12).sum % 3 == 0
where
  /-- Number of inversions of a sequence; its parity is the permutation parity. -/
  inversions : List ℤ → ℕ
    | [] => 0
    | x :: t => t.countP (fun y => y < x) + inversions t

/-- The `edgePermutation` draw of one loop iteration starting at stream
position `k`. -/
def edgeShuffle (s : ℕ → ℚ) (k : ℕ) : List ℤ × ℕ := shuffle s k edgeSlotIds

/-- The `cornerPermutation` draw, consuming the stream after the edge draw. -/
def cornerShuffle (s : ℕ → ℚ) (k : ℕ) : List ℤ × ℕ :=
  shuffle s (edgeShuffle s k).2 cornerSlotIds

/-- One iteration of the do-while body of `generateCubeState`: shuffle the edge
ids, shuffle the corner ids, concatenate, then draw 12 edge orientations from
{0,1} and 8 corner orientations from {0,1,2}; also returns the next unused
stream position. -/
def genOnce (s : ℕ → ℚ) (k : ℕ) : (List ℤ × List ℤ) × ℕ :=
  (((edgeShuffle s k).1 ++ (cornerShuffle s k).1,
    ((List.range 12).map fun t => ((jsFloor (s ((cornerShuffle s k).2 + t)) 2 : ℕ) : ℤ)) ++
    ((List.range 8).map fun t => ((jsFloor (s ((cornerShuffle s k).2 + 12 + t)) 3 : ℕ) : ℤ))),
   (cornerShuffle s k).2 + 20)

/-- `generateCubeState`: reject-and-resample until `verifyState` passes.  The
do-while loop has no a-priori bound, so the embedding takes explicit fuel and
returns `none` when the fuel is exhausted. -/
def generateCubeState (s : ℕ → ℚ) : ℕ → ℕ → Option (List ℤ × List ℤ)
  | 0, _ => none
  | fuel + 1, k =>
      let r := genOnce s k
      if verifyState r.1.1 r.1.2 then some r.1 else generateCubeState s fuel r.2

/-- Swapping the head with the element at index `m` is a permutation. -/
lemma getD_set_perm {α : Type} (d x : α) :
    ∀ (t : List α) (m : ℕ), m < t.length → (t.getD m d :: t.set m x).Perm (x :: t)
  | [], m, h => absurd h (by simp)
  | y :: s, 0, _ => List.Perm.swap x y s
  | y :: s, m + 1, h => by
      have hm : m < s.length := by simpa using h
      have step1 : (s.getD m d :: y :: s.set m x).Perm (y :: s.getD m d :: s.set m x) :=
        List.Perm.swap y _ _
      have step2 : (y :: s.getD m d :: s.set m x).Perm (y :: x :: s) :=
        (getD_set_perm d x s m hm).cons y
      have step3 : (y :: x :: s).Perm (x :: y :: s) := List.Perm.swap x y s
      exact (step1.trans step2).trans step3

/-- A two-index swap is a permutation of the list. -/
lemma listSwap_perm :
    ∀ (a : List ℤ) (i j : ℕ), i < a.length → j < a.length → (listSwap a i j).Perm a
  | [], i, _, hi, _ => absurd hi (by simp)
  | x :: t, 0, 0, _, _ => by simp [listSwap]
  | x :: t, 0, j + 1, _, hj => by
      have : listSwap (x :: t) 0 (j + 1) = t.getD j 0 :: t.set j x := rfl
      rw [this]
      exact getD_set_perm 0 x t j (by simpa using hj)
  | x :: t, i + 1, 0, hi, _ => by
      have : listSwap (x :: t) (i + 1) 0 = t.getD i 0 :: t.set i x := rfl
      rw [this]
      exact getD_set_perm 0 x t i (by simpa using hi)
  | x :: t, i + 1, j + 1, hi, hj => by
      have : listSwap (x :: t) (i + 1) (j + 1) = x :: listSwap t i j := rfl
      rw [this]
      exact (listSwap_perm t i j (by simpa using hi) (by simpa using hj)).cons x

lemma jsFloor_lt {q : ℚ} (h0 : 0 ≤ q) (h1 : q < 1) {n : ℕ} (hn : 0 < n) :
    jsFloor q n < n := by
  have hmul : q * n < n := by
    calc q * n < 1 * n := by
          exact mul_lt_mul_of_pos_right h1 (by exact_mod_cast hn)
      _ = n := one_mul _
  have hfl : ⌊q * (n : ℚ)⌋ < (n : ℤ) := Int.floor_lt.mpr (by exact_mod_cast hmul)
  have hnn : (0 : ℤ) ≤ ⌊q * (n : ℚ)⌋ :=
    Int.floor_nonneg.mpr (mul_nonneg h0 (by positivity))
  exact (Int.toNat_lt hnn).mpr (by exact_mod_cast hfl)

/-- The Fisher–Yates loop returns a rearrangement of exactly its input values. -/
lemma shuffleAux_perm (s : ℕ → ℚ) (hs : ∀ k, 0 ≤ s k ∧ s k < 1) :
    ∀ (i k : ℕ) (a : List ℤ), i < a.length → ((shuffleAux s i k a).1).Perm a := by
  intro i
  induction i with
  | zero => intro k a _; exact List.Perm.refl a
  | succ i ih =>
      intro k a hi
      have hj : jsFloor (s k) (i + 2) < a.length :=
        lt_of_lt_of_le (jsFloor_lt (hs k).1 (hs k).2 (by omega)) (by omega)
      have hswap : (listSwap a (i + 1) (jsFloor (s k) (i + 2))).Perm a :=
        listSwap_perm a _ _ hi hj
      have hlen : (listSwap a (i + 1) (jsFloor (s k) (i + 2))).length = a.length := by
        simp [listSwap]
      exact ((ih (k + 1) _ (by omega)).trans hswap)

/-- `shuffle` returns a rearrangement of exactly its input values. -/
lemma shuffle_perm (s : ℕ → ℚ) (hs : ∀ k, 0 ≤ s k ∧ s k < 1) (k : ℕ) (a : List ℤ) :
    ((shuffle s k a).1).Perm a := by
  cases a with
  | nil => exact List.Perm.refl _
  | cons x t => exact shuffleAux_perm s hs _ k (x :: t) (by simp)

lemma genOnce_props (s : ℕ → ℚ) (hs : ∀ k, 0 ≤ s k ∧ s k < 1) (k : ℕ) :
    (((genOnce s k).1.1.take 12).Perm edgeSlotIds ∧
     ((genOnce s k).1.1.drop 12).Perm cornerSlotIds) ∧
    ((∀ x ∈ (genOnce s k).1.2.take 12, 0 ≤ x ∧ x < 2) ∧
     (∀ x ∈ (genOnce s k).1.2.drop 12, 0 ≤ x ∧ x < 3)) := by
  have hep : ((edgeShuffle s k).1).Perm edgeSlotIds := shuffle_perm s hs k _
  have hcp : ((cornerShuffle s k).1).Perm cornerSlotIds := shuffle_perm s hs _ _
  have heplen : (edgeShuffle s k).1.length = 12 := hep.length_eq
  have heolen : ((List.range 12).map
      fun t => ((jsFloor (s ((cornerShuffle s k).2 + t)) 2 : ℕ) : ℤ)).length = 12 := by
    simp
  refine ⟨⟨?_, ?_⟩, ?_, ?_⟩
  · show (((edgeShuffle s k).1 ++ (cornerShuffle s k).1).take 12).Perm edgeSlotIds
    rw [List.take_left' heplen]
    exact hep
  · show (((edgeShuffle s k).1 ++ (cornerShuffle s k).1).drop 12).Perm cornerSlotIds
    rw [List.drop_left' heplen]
    exact hcp
  · show ∀ x ∈ (((List.range 12).map
        fun t => ((jsFloor (s ((cornerShuffle s k).2 + t)) 2 : ℕ) : ℤ)) ++
        ((List.range 8).map
        fun t => ((jsFloor (s ((cornerShuffle s k).2 + 12 + t)) 3 : ℕ) : ℤ))).take 12,
        0 ≤ x ∧ x < 2
    rw [List.take_left' heolen]
    intro x hx
    obtain ⟨t, _, rfl⟩ := List.mem_map.mp hx
    have := @jsFloor_lt (s ((cornerShuffle s k).2 + t)) (hs _).1 (hs _).2 2 (by omega)
    exact ⟨by exact_mod_cast Nat.zero_le _, by exact_mod_cast this⟩
  · show ∀ x ∈ (((List.range 12).map
        fun t => ((jsFloor (s ((cornerShuffle s k).2 + t)) 2 : ℕ) : ℤ)) ++
        ((List.range 8).map
        fun t => ((jsFloor (s ((cornerShuffle s k).2 + 12 + t)) 3 : ℕ) : ℤ))).drop 12,
        0 ≤ x ∧ x < 3
    rw [List.drop_left' heolen]
    intro x hx
    obtain ⟨t, _, rfl⟩ := List.mem_map.mp hx
    have := @jsFloor_lt (s ((cornerShuffle s k).2 + 12 + t)) (hs _).1 (hs _).2 3 (by omega)
    exact ⟨by exact_mod_cast Nat.zero_le _, by exact_mod_cast this⟩

/-- C4: cube-state generation is deterministic in the seed.  A fixed seed fixes
the random stream `s`; two invocations of the generator on the same stream
(and fuel) yield identical permutation and orientation arrays. -/
theorem generateCubeState_deterministic (s : ℕ → ℚ) (fuel k : ℕ)
    (st₁ st₂ : List ℤ × List ℤ)
    (h₁ : generateCubeState s fuel k = some st₁)
    (h₂ : generateCubeState s fuel k = some st₂) :
    st₁.1 = st₂.1 ∧ st₁.2 = st₂.2 := by
  rw [h₁] at h₂
  cases Option.some.inj h₂
  exact ⟨rfl, rfl⟩

/-- The demo stream: 18 values of 0.99 (making both Fisher–Yates shuffles the
identity), then zeros (all orientations 0). -/
def demoStream : ℕ → ℚ := fun k => if k < 18 then 99 / 100 else 0

def solvedPermList : List ℤ :=
  [0, 1, 2, 3, 4, 5, 6, 7, 8, 9, 10, 11, 12, 13, 14, 15, 16, 17, 18, 19]

def zeroOriList : List ℤ :=
  [0, 0, 0, 0, 0, 0, 0, 0, 0, 0, 0, 0, 0, 0, 0, 0, 0, 0, 0, 0]

lemma demoStream_bounds : ∀ k, 0 ≤ demoStream k ∧ demoStream k < 1 := by
  intro k
  show 0 ≤ (if k < 18 then (99 : ℚ) / 100 else 0) ∧
    (if k < 18 then (99 : ℚ) / 100 else 0) < 1
  split <;> constructor <;> norm_num

/-- Setting an index to the element already there changes nothing. -/
lemma set_getD_self : ∀ (a : List ℤ) (i : ℕ), a.set i (a.getD i 0) = a
  | [], _ => by simp
  | _ :: _, 0 => rfl
  | x :: t, i + 1 => congrArg (x :: ·) (set_getD_self t i)

lemma listSwap_self (a : List ℤ) (i : ℕ) : listSwap a i i = a := by
  unfold listSwap
  rw [set_getD_self, set_getD_self]

/-- When every draw hits its own loop index, Fisher–Yates is the identity. -/
lemma shuffleAux_id (s : ℕ → ℚ) :
    ∀ (i k : ℕ) (a : List ℤ),
      (∀ v, 1 ≤ v → v ≤ i → jsFloor (s (k + (i - v))) (v + 1) = v) →
      shuffleAux s i k a = (a, k + i) := by
  intro i
  induction i with
  | zero => intro k a _; rfl
  | succ i ih =>
      intro k a h
      have h0 : jsFloor (s k) (i + 2) = i + 1 := by
        have := h (i + 1) (by omega) (by omega)
        simpa using this
      show shuffleAux s i (k + 1) (listSwap a (i + 1) (jsFloor (s k) (i + 2))) = (a, k + (i + 1))
      rw [h0, listSwap_self]
      rw [ih (k + 1) a fun v h1 h2 => by
        rw [show k + 1 + (i - v) = k + (i + 1 - v) from by omega]
        exact h v h1 (by omega)]
      exact congrArg (Prod.mk a) (by omega)

lemma jsFloor_99_100 {n : ℕ} (h1 : 0 < n) (h2 : n ≤ 100) :
    jsFloor (99 / 100) n = n - 1 := by
  unfold jsFloor
  have hq1 : (1 : ℚ) ≤ (n : ℚ) := by exact_mod_cast h1
  have hq2 : (n : ℚ) ≤ 100 := by exact_mod_cast h2
  have hfl : ⌊(99 : ℚ) / 100 * n⌋ = (n : ℤ) - 1 := by
    rw [Int.floor_eq_iff]
    constructor
    · push_cast
      linarith
    · push_cast
      linarith
  rw [hfl]
  omega

lemma jsFloor_zero_val (n : ℕ) : jsFloor 0 n = 0 := by
  simp [jsFloor]

lemma demoStream_lt (k : ℕ) (h : k < 18) : demoStream k = 99 / 100 := by
  simp [demoStream, h]

lemma demoStream_ge (k : ℕ) (h : 18 ≤ k) : demoStream k = 0 := by
  simp [demoStream]
  omega

lemma demo_edgeShuffle : edgeShuffle demoStream 0 = (edgeSlotIds, 11) := by
  show shuffleAux demoStream 11 0 edgeSlotIds = (edgeSlotIds, 0 + 11)
  refine shuffleAux_id demoStream 11 0 edgeSlotIds fun v h1 h2 => ?_
  rw [demoStream_lt (0 + (11 - v)) (by omega), jsFloor_99_100 (by omega) (by omega)]
  omega

lemma demo_cornerShuffle : cornerShuffle demoStream 0 = (cornerSlotIds, 18) := by
  unfold cornerShuffle
  rw [demo_edgeShuffle]
  show shuffleAux demoStream 7 11 cornerSlotIds = (cornerSlotIds, 11 + 7)
  refine shuffleAux_id demoStream 7 11 cornerSlotIds fun v h1 h2 => ?_
  rw [demoStream_lt (11 + (7 - v)) (by omega), jsFloor_99_100 (by omega) (by omega)]
  omega

lemma demo_genOnce :
    genOnce demoStream 0 = ((solvedPermList, zeroOriList), 38) := by
  unfold genOnce
  rw [demo_edgeShuffle]
  rw [demo_cornerShuffle]
  have ho1 : ∀ t : ℕ, demoStream (18 + t) = 0 := fun t => demoStream_ge _ (by omega)
  have ho2 : ∀ t : ℕ, demoStream (18 + 12 + t) = 0 := fun t => demoStream_ge _ (by omega)
  simp only [ho1, ho2, jsFloor_zero_val]
  decide

lemma demoStream_gen :
    generateCubeState demoStream 1 0 = some (solvedPermList, zeroOriList) := by
  show (if verifyState (genOnce demoStream 0).1.1 (genOnce demoStream 0).1.2
        then some (genOnce demoStream 0).1
        else generateCubeState demoStream 0 (genOnce demoStream 0).2)
      = some (solvedPermList, zeroOriList)
  rw [demo_genOnce]
  have : verifyState solvedPermList zeroOriList = true := by decide
  rw [this]
  rfl

/-- Witness for C4 at the demo stream. -/
theorem generateCubeState_deterministic_witness :
    (solvedPermList, zeroOriList).1 = (solvedPermList, zeroOriList).1 ∧
    (solvedPermList, zeroOriList).2 = (solvedPermList, zeroOriList).2 :=
  generateCubeState_deterministic demoStream 1 0 _ _ demoStream_gen demoStream_gen

/-- C5: every generation-loop candidate is an edge shuffle of `[0..11]`
concatenated with a corner shuffle of `[12..19]` with orientations drawn from
{0,1} / {0,1,2}; hence any state the loop returns keeps edge identities in edge
slots, corner identities in corner slots, with orientations in range. -/
theorem generateCubeState_role_correct (s : ℕ → ℚ) (hs : ∀ k, 0 ≤ s k ∧ s k < 1) :
    (∀ k, (((genOnce s k).1.1.take 12).Perm edgeSlotIds ∧
           ((genOnce s k).1.1.drop 12).Perm cornerSlotIds) ∧
          ((∀ x ∈ (genOnce s k).1.2.take 12, 0 ≤ x ∧ x < 2) ∧
           (∀ x ∈ (genOnce s k).1.2.drop 12, 0 ≤ x ∧ x < 3))) ∧
    (∀ fuel k p o, generateCubeState s fuel k = some (p, o) →
      ((p.take 12).Perm edgeSlotIds ∧ (p.drop 12).Perm cornerSlotIds) ∧
      ((∀ x ∈ o.take 12, 0 ≤ x ∧ x < 2) ∧ (∀ x ∈ o.drop 12, 0 ≤ x ∧ x < 3))) := by
  refine ⟨genOnce_props s hs, ?_⟩
  intro fuel
  induction fuel with
  | zero => intro k p o h; simp [generateCubeState] at h
  | succ n ih =>
      intro k p o h
      rw [generateCubeState] at h
      split at h
      · have hpo : (genOnce s k).1 = (p, o) := Option.some.inj h
        have := genOnce_props s hs k
        rw [hpo] at this
        exact this
      · exact ih _ p o h

/-- Witness for C5 at the demo stream. -/
theorem generateCubeState_role_correct_witness :
    ((solvedPermList.take 12).Perm edgeSlotIds ∧
     (solvedPermList.drop 12).Perm cornerSlotIds) ∧
    ((∀ x ∈ zeroOriList.take 12, 0 ≤ x ∧ x < 2) ∧
     (∀ x ∈ zeroOriList.drop 12, 0 ≤ x ∧ x < 3)) :=
  (generateCubeState_role_correct demoStream demoStream_bounds).2
    1 0 solvedPermList zeroOriList demoStream_gen

/-! ### C6: the "stickers correct" metric (`countSolvedStickers`) -/

/-- `countSolvedStickers`: count the non-center facelet positions (skipping
`i % 9 == 4`) where the projected guess color equals the projected answer
color, then add the 6 centers. -/
def countSolvedStickers (gp go ap ao : Nat → Nat) : ℕ :=
  (((List.range 54).filter fun i =>
      i % 9 != 4 &&
      ((stateToFaceletColors gp go).getD i ' ' ==
       (stateToFaceletColors ap ao).getD i ' ')).length) + 6

/-- C6: the "stickers correct" metric equals the number of non-center facelet
positions at which guess and answer project to the same color, plus exactly 6
for the always-correct centers; it always lies between 6 and 54. -/
theorem countSolvedStickers_spec (gp go ap ao : Nat → Nat) :
    countSolvedStickers gp go ap ao =
      6 + ((Finset.range 54).filter fun i => i % 9 ≠ 4 ∧
        (stateToFaceletColors gp go).getD i ' ' =
        (stateToFaceletColors ap ao).getD i ' ').card ∧
    6 ≤ countSolvedStickers gp go ap ao ∧
    countSolvedStickers gp go ap ao ≤ 54 := by
  have hcard1 : ((Finset.range 54).filter fun i => i % 9 ≠ 4 ∧
        (stateToFaceletColors gp go).getD i ' ' =
        (stateToFaceletColors ap ao).getD i ' ').card
      = ((List.range 54).filter fun i => decide (i % 9 ≠ 4 ∧
          (stateToFaceletColors gp go).getD i ' ' =
          (stateToFaceletColors ap ao).getD i ' ')).length := rfl
  have hcard2 : ((List.range 54).filter fun i => decide (i % 9 ≠ 4 ∧
        (stateToFaceletColors gp go).getD i ' ' =
        (stateToFaceletColors ap ao).getD i ' '))
      = ((List.range 54).filter fun i =>
          i % 9 != 4 &&
          ((stateToFaceletColors gp go).getD i ' ' ==
           (stateToFaceletColors ap ao).getD i ' ')) := by
    refine List.filter_congr fun i _ => ?_
    generalize (stateToFaceletColors gp go).getD i ' ' = c1
    generalize (stateToFaceletColors ap ao).getD i ' ' = c2
    by_cases h1 : i % 9 = 4 <;> by_cases h2 : c1 = c2 <;> simp [h1, h2]
  have hcard : ((Finset.range 54).filter fun i => i % 9 ≠ 4 ∧
        (stateToFaceletColors gp go).getD i ' ' =
        (stateToFaceletColors ap ao).getD i ' ').card
      = ((List.range 54).filter fun i =>
          i % 9 != 4 &&
          ((stateToFaceletColors gp go).getD i ' ' ==
           (stateToFaceletColors ap ao).getD i ' ')).length := by
    rw [hcard1, hcard2]
  refine ⟨by rw [hcard]; exact Nat.add_comm _ 6, Nat.le_add_left 6 _, ?_⟩
  have hle : ((List.range 54).filter fun i =>
      i % 9 != 4 &&
      ((stateToFaceletColors gp go).getD i ' ' ==
       (stateToFaceletColors ap ao).getD i ' ')).length
      ≤ ((List.range 54).filter fun i => i % 9 != 4).length := by
    rw [← List.countP_eq_length_filter, ← List.countP_eq_length_filter]
    refine List.countP_mono_left fun x _ hx => ?_
    exact (Bool.and_elim_left hx)
  have h48 : ((List.range 54).filter fun i => i % 9 != 4).length = 48 := by decide
  unfold countSolvedStickers
  omega

/-! ### C7: picker operations keep orientations in range -/

/-- The three state-editing picker actions of `Cube3D.initPicker`. -/
inductive PickerOp where
  | assign : Fin 20 → Fin 20 → PickerOp
  | erase : Fin 20 → PickerOp
  | rotate : Fin 20 → PickerOp

/-- `cubie.name.length` for the cubie sitting at a slot: 2 for edge slots,
3 for corner slots. -/
def slotNameLen (slot : Nat) : ℕ := (CUBIE_ORDER.getD slot []).length

/-- The `permutation`/`orientation` fields of the `Cube3D` instance. -/
structure PickerState where
  permutation : List ℤ
  orientation : List ℤ

/-- The initial `Cube3D` fields: identity permutation, all orientations 0. -/
def pickerInit : PickerState := ⟨solvedPermList, zeroOriList⟩

/-- The onclick handlers of `initPicker`: a piece button sets
`permutation[slot] = piece` and `orientation[slot] = 0`; erase sets
`permutation[slot] = -1` (orientation untouched); rotate decrements
`orientation[slot]`, wrapping negatives to `cubie.name.length - 1`. -/
def applyPickerOp (st : PickerState) (op : PickerOp) : PickerState :=
  match op with
  | .assign slot piece =>
      { permutation := st.permutation.set slot (piece : ℕ),
        orientation := st.orientation.set slot 0 }
  | .erase slot =>
      { st with permutation := st.permutation.set slot (-1) }
  | .rotate slot =>
      let o := st.orientation.getD slot 0 - 1
      { st with orientation :=
          st.orientation.set slot (if o < 0 then (slotNameLen slot : ℤ) - 1 else o) }

lemma slotNameLen_bounds : ∀ i : Fin 20,
    (0 < slotNameLen i) ∧ ((i : ℕ) < 12 → slotNameLen i = 2) ∧
    (12 ≤ (i : ℕ) → slotNameLen i = 3) := by decide

lemma getD_set (l : List ℤ) (j i : ℕ) (v : ℤ) :
    (l.set j v).getD i 0 = if j = i ∧ j < l.length then v else l.getD i 0 := by
  rw [List.getD_eq_getElem?_getD, List.getD_eq_getElem?_getD, List.getElem?_set]
  by_cases h1 : j = i
  · subst h1
    by_cases h2 : j < l.length
    · simp [h2]
    · simp [h2, List.getElem?_eq_none (by omega : l.length ≤ j)]
  · simp [h1]

/-- The picker-state invariant: 20 orientations, each within its slot's range. -/
def PickerInv (st : PickerState) : Prop :=
  st.orientation.length = 20 ∧
  ∀ i : Fin 20, 0 ≤ st.orientation.getD i 0 ∧
    st.orientation.getD i 0 < slotNameLen i

lemma pickerInit_inv : PickerInv pickerInit := by
  constructor
  · rfl
  · intro i
    have h0 : zeroOriList.getD i 0 = 0 := by
      have : ∀ j, j < 20 → zeroOriList.getD j 0 = 0 := by decide
      exact this i i.isLt
    rw [show pickerInit.orientation = zeroOriList from rfl, h0]
    exact ⟨le_refl 0, by exact_mod_cast (slotNameLen_bounds i).1⟩

lemma applyPickerOp_inv (st : PickerState) (op : PickerOp)
    (h : PickerInv st) : PickerInv (applyPickerOp st op) := by
  obtain ⟨hlen, hrange⟩ := h
  cases op with
  | assign slot piece =>
      have heq : (applyPickerOp st (.assign slot piece)).orientation
          = st.orientation.set slot 0 := rfl
      refine ⟨?_, fun i => ?_⟩
      · rw [heq, List.length_set]; exact hlen
      · rw [heq, getD_set]
        split
        · exact ⟨le_refl 0, by exact_mod_cast (slotNameLen_bounds i).1⟩
        · exact hrange i
  | erase slot => exact ⟨hlen, hrange⟩
  | rotate slot =>
      have heq : (applyPickerOp st (.rotate slot)).orientation
          = st.orientation.set slot
              (if st.orientation.getD slot 0 - 1 < 0 then (slotNameLen slot : ℤ) - 1
               else st.orientation.getD slot 0 - 1) := rfl
      refine ⟨?_, fun i => ?_⟩
      · rw [heq, List.length_set]; exact hlen
      · rw [heq, getD_set]
        split
        · rename_i hcond
          obtain ⟨hji, _⟩ := hcond
          have hsl : 0 < slotNameLen (slot : ℕ) := (slotNameLen_bounds slot).1
          obtain ⟨ho1, ho2⟩ := hrange slot
          rw [← hji]
          split
          · exact ⟨by omega, by omega⟩
          · exact ⟨by omega, by omega⟩
        · exact hrange i

/-- C7: starting from the all-zero orientation array, assigning sets a slot's
orientation to 0, erasing leaves orientations unchanged, rotating decrements
with wrap-around to `nameLength - 1`; hence after any sequence of picker
operations every edge slot's orientation is in {0,1} and every corner slot's
in {0,1,2}. -/
theorem pickerOps_orientation_in_range (ops : List PickerOp) (i : Fin 20) :
    (0 ≤ (ops.foldl applyPickerOp pickerInit).orientation.getD i 0 ∧
     ((i : ℕ) < 12 →
       (ops.foldl applyPickerOp pickerInit).orientation.getD i 0 < 2) ∧
     (12 ≤ (i : ℕ) →
       (ops.foldl applyPickerOp pickerInit).orientation.getD i 0 < 3)) ∧
    (∀ st (slot piece : Fin 20), st.orientation.length = 20 →
      (applyPickerOp st (.assign slot piece)).orientation.getD slot 0 = 0) ∧
    (∀ st (slot : Fin 20),
      (applyPickerOp st (.erase slot)).orientation = st.orientation) ∧
    (∀ st (slot : Fin 20),
      (applyPickerOp st (.rotate slot)).orientation =
        st.orientation.set slot
          (if st.orientation.getD slot 0 - 1 < 0 then (slotNameLen slot : ℤ) - 1
           else st.orientation.getD slot 0 - 1)) := by
  have hinv : PickerInv (ops.foldl applyPickerOp pickerInit) := by
    induction ops using List.reverseRecOn with
    | nil => exact pickerInit_inv
    | append_singleton ops op ih =>
        rw [List.foldl_append]
        exact applyPickerOp_inv _ op ih
  obtain ⟨hlen, hrange⟩ := hinv
  obtain ⟨h1, h2⟩ := hrange i
  refine ⟨⟨h1, ?_, ?_⟩, ?_, fun _ _ => rfl, fun _ _ => rfl⟩
  · intro hi
    have := (slotNameLen_bounds i).2.1 hi
    omega
  · intro hi
    have := (slotNameLen_bounds i).2.2 hi
    omega
  · intro st slot piece hst
    have heq : (applyPickerOp st (.assign slot piece)).orientation
        = st.orientation.set slot 0 := rfl
    rw [heq, getD_set, if_pos ⟨rfl, by rw [hst]; exact slot.isLt⟩]

/-! ### C9: `check()` has no distinct InvalidShape signal -/

/-- The guard of `check()`: the guess button "shakes" (same silent outcome)
when the permutation contains the `-1` sentinel or when `verifyState` fails.
This Bool is the entire observable validation outcome — there is no separate
condition for malformed shapes. -/
def checkShake (perm ori : List ℤ) : Bool :=
  perm.contains (-1) || !(verifyState perm ori)

/-- A role-crossing permutation: corner id 12 in edge slot 0 and edge id 0 in
corner slot 12 — a malformed shape per the spec's shape-check. -/
def roleCrossedPerm : List ℤ :=
  [12, 1, 2, 3, 4, 5, 6, 7, 8, 9, 10, 11, 0, 13, 14, 15, 16, 17, 18, 19]

/-- A shape-correct but parity-violating (merely unsolved) state: one edge
orientation flipped on the solved permutation. -/
def oneFlipOri : List ℤ :=
  [1, 0, 0, 0, 0, 0, 0, 0, 0, 0, 0, 0, 0, 0, 0, 0, 0, 0, 0, 0]

/-- C9 evidence: the malformed (role-crossing) state is not flagged by any
distinct InvalidShape condition — `check()` just runs the parity-based
`verifyState` and lands in the same silent "shake" outcome as an ordinary
shape-correct unsolved state, and not via the `-1` sentinel test. -/
theorem check_silently_rejects_malformed_shape :
    checkShake roleCrossedPerm zeroOriList = true ∧
    checkShake solvedPermList oneFlipOri = true ∧
    roleCrossedPerm.contains (-1) = false := by decide

/-! ### C10: the adjacency table is bipartite, symmetric, unit-axis-consistent -/

/-- `Cube3D.CUBIE_COORDINATES`: 3D grid coordinates (0..2) of each piece. -/
def CUBIE_COORDINATES : List (List Char × (ℤ × ℤ × ℤ)) :=
  [(['U','F'], (1, 2, 2)), (['U','R'], (2, 1, 2)), (['U','B'], (1, 0, 2)),
   (['U','L'], (0, 1, 2)),
   (['D','F'], (1, 2, 0)), (['D','R'], (2, 1, 0)), (['D','B'], (1, 0, 0)),
   (['D','L'], (0, 1, 0)),
   (['F','R'], (2, 2, 1)), (['F','L'], (0, 2, 1)), (['B','R'], (2, 0, 1)),
   (['B','L'], (0, 0, 1)),
   (['U','F','R'], (2, 2, 2)), (['U','R','B'], (2, 0, 2)),
   (['U','B','L'], (0, 0, 2)), (['U','L','F'], (0, 2, 2)),
   (['D','R','F'], (2, 2, 0)), (['D','F','L'], (0, 2, 0)),
   (['D','L','B'], (0, 0, 0)), (['D','B','R'], (2, 0, 0))]

/-- `Cube3D.ADJACENCY_MAP`: the fixed neighbor sets used by navigation. -/
def ADJACENCY_MAP : List (List Char × List (List Char)) :=
  [(['U','F','R'], [['U','F'], ['F','R'], ['U','R']]),
   (['U','R','B'], [['U','R'], ['B','R'], ['U','B']]),
   (['U','B','L'], [['U','B'], ['B','L'], ['U','L']]),
   (['U','L','F'], [['U','L'], ['F','L'], ['U','F']]),
   (['D','R','F'], [['D','F'], ['F','R'], ['D','R']]),
   (['D','F','L'], [['D','F'], ['F','L'], ['D','L']]),
   (['D','L','B'], [['D','L'], ['B','L'], ['D','B']]),
   (['D','B','R'], [['D','B'], ['B','R'], ['D','R']]),
   (['U','F'], [['U','F','R'], ['U','L','F']]),
   (['U','R'], [['U','F','R'], ['U','R','B']]),
   (['U','B'], [['U','R','B'], ['U','B','L']]),
   (['U','L'], [['U','B','L'], ['U','L','F']]),
   (['D','F'], [['D','R','F'], ['D','F','L']]),
   (['D','R'], [['D','R','F'], ['D','B','R']]),
   (['D','B'], [['D','B','R'], ['D','L','B']]),
   (['D','L'], [['D','L','B'], ['D','F','L']]),
   (['F','R'], [['U','F','R'], ['D','R','F']]),
   (['F','L'], [['U','L','F'], ['D','F','L']]),
   (['B','R'], [['U','R','B'], ['D','B','R']]),
   (['B','L'], [['U','B','L'], ['D','L','B']])]

/-- Bipartite (edge names list only corner neighbors and vice versa),
symmetric (`b ∈ adj a ↔ a ∈ adj b`), and unit-axis-consistent with the
coordinate table (adjacent pieces' grid coordinates differ by exactly 1 in
exactly one axis). -/
def adjacencyTablesOK : Bool :=
  ADJACENCY_MAP.all fun aq =>
    aq.2.all fun b =>
      ((aq.1.length == 2 && b.length == 3) || (aq.1.length == 3 && b.length == 2)) &&
      (match ADJACENCY_MAP.lookup b with
       | some ns => ns.contains aq.1
       | none => false) &&
      (match CUBIE_COORDINATES.lookup aq.1, CUBIE_COORDINATES.lookup b with
       | some ca, some cb =>
           ((ca.1 - cb.1).natAbs + (ca.2.1 - cb.2.1).natAbs +
            (ca.2.2 - cb.2.2).natAbs) == 1
       | _, _ => false)

/-- C10: the static adjacency table is bipartite, symmetric, and geometrically
consistent with the coordinate table — every listed move vector between
adjacent pieces is a unit axis vector. -/
theorem adjacency_bipartite_symmetric_unit_axis : adjacencyTablesOK = true := by
  decide

/-! ### C3/C8: screen-relative directional navigation

`getDirectionalTarget` works on THREE.js float vectors; it is embedded over ℝ.
Scene cubie positions are the grid coordinates of `CUBIE_COORDINATES` (the
scene applies a uniform `-1` translation to every cubie, which cancels in the
difference vectors and equality tests that navigation uses). -/

noncomputable section Navigation

open scoped Classical

/-- A THREE.js `Vector3`. -/
structure V3 where
  x : ℝ
  y : ℝ
  z : ℝ

def dotV (a b : V3) : ℝ := a.x * b.x + a.y * b.y + a.z * b.z

def crossV (a b : V3) : V3 :=
  ⟨a.y * b.z - a.z * b.y, a.z * b.x - a.x * b.z, a.x * b.y - a.y * b.x⟩

def subV (a b : V3) : V3 := ⟨a.x - b.x, a.y - b.y, a.z - b.z⟩

def negV (a : V3) : V3 := ⟨-a.x, -a.y, -a.z⟩

/-- THREE's `normalize()`: divide by `length() || 1` (zero vectors stay zero). -/
def normalizeV (a : V3) : V3 :=
  let len := Real.sqrt (dotV a a)
  let d := if len = 0 then 1 else len
  ⟨a.x / d, a.y / d, a.z / d⟩

/-- Scene position of a piece (grid coordinates, see note above). -/
def posOf (name : List Char) : Option V3 :=
  (CUBIE_COORDINATES.lookup name).map fun c =>
    ⟨(c.1 : ℝ), (c.2.1 : ℝ), (c.2.2 : ℝ)⟩

/-- `camRight = cross(camForward, camUp.normalize()).normalize()`, falling back
to the quaternion-rotated unit-x vector (an input here) when degenerate. -/
def camRightOf (camForward camUp fallbackRight : V3) : V3 :=
  let r0 := normalizeV (crossV camForward (normalizeV camUp))
  if dotV r0 r0 < 1 / 10000 then fallbackRight else r0

/-- `screenUp = cross(camRight, camForward).normalize()`. -/
def screenUpOf (camForward camUp fallbackRight : V3) : V3 :=
  normalizeV (crossV (camRightOf camForward camUp fallbackRight) camForward)

/-- The primary axis of a move: ±screenUp for w/s, ±camRight otherwise (d/a). -/
def primaryAxis (dir : Char) (camForward camUp fallbackRight : V3) : V3 :=
  if dir = 'w' ∨ dir = 's' then
    (if dir = 'w' then screenUpOf camForward camUp fallbackRight
     else negV (screenUpOf camForward camUp fallbackRight))
  else
    (if dir = 'd' then camRightOf camForward camUp fallbackRight
     else negV (camRightOf camForward camUp fallbackRight))

/-- The orthogonal axis: camRight for vertical moves, screenUp for horizontal. -/
def orthoAxis (dir : Char) (camForward camUp fallbackRight : V3) : V3 :=
  if dir = 'w' ∨ dir = 's' then camRightOf camForward camUp fallbackRight
  else screenUpOf camForward camUp fallbackRight

/-- Primary and orthogonal scores of one candidate: the normalized
current-to-candidate vector dotted with each axis (`none` when the candidate
is not in the scene, which the loop skips). -/
def candScore (curPos primary ortho : V3) (name : List Char) : Option (ℝ × ℝ) :=
  (posOf name).map fun p =>
    let mv := normalizeV (subV p curPos)
    (dotV mv primary, |dotV mv ortho|)

/-- The candidate loop of `getDirectionalTarget`: keep the candidate whose
primary score beats the best so far and strictly dominates its own orthogonal
score (`bestScore` starts at `-Infinity`, modelled by the `none` accumulator). -/
def bestLoop (f : List Char → Option (ℝ × ℝ)) :
    List (List Char) → Option (List Char × ℝ) → Option (List Char × ℝ)
  | [], acc => acc
  | c :: rest, acc =>
      match f c with
      | none => bestLoop f rest acc
      | some (sp, so) =>
          if (acc.elim True fun p => sp > p.2) ∧ sp > so
          then bestLoop f rest (some (c, sp))
          else bestLoop f rest acc

/-- The per-direction score function used on the current piece's candidates. -/
def scoreOf (curPos : V3) (dir : Char) (camForward camUp fallbackRight : V3)
    (c : List Char) : Option (ℝ × ℝ) :=
  candScore curPos (primaryAxis dir camForward camUp fallbackRight)
    (orthoAxis dir camForward camUp fallbackRight) c

/-- `Cube3D.getDirectionalTarget`: restrict to the adjacency set, run the
candidate loop, and require a confident (`> 0.5`) best score. -/
def getDirectionalTarget (curName : List Char) (curPos : V3) (dir : Char)
    (camForward camUp fallbackRight : V3) : Option (List Char) :=
  match ADJACENCY_MAP.lookup curName with
  | none => none
  | some candidates =>
      match bestLoop (scoreOf curPos dir camForward camUp fallbackRight)
          candidates none with
      | some (b, s) => if s > 1 / 2 then some b else none
      | none => none

/-- The loop returns `none` iff it started empty-handed and no candidate's
primary score strictly dominates its orthogonal score. -/
lemma bestLoop_eq_none_iff (f : List Char → Option (ℝ × ℝ)) :
    ∀ (l : List (List Char)) (acc : Option (List Char × ℝ)),
      bestLoop f l acc = none ↔
        (acc = none ∧ ∀ c ∈ l, ∀ sp so, f c = some (sp, so) → sp ≤ so) := by
  intro l
  induction l with
  | nil =>
      intro acc
      simp [bestLoop]
  | cons c rest ih =>
      intro acc
      cases hf : f c with
      | none =>
          simp only [bestLoop, hf]
          rw [ih]
          constructor
          · rintro ⟨h1, h2⟩
            refine ⟨h1, fun c' hc' sp' so' hf' => ?_⟩
            rcases List.mem_cons.mp hc' with rfl | hmem
            · rw [hf] at hf'; cases hf'
            · exact h2 c' hmem sp' so' hf'
          · rintro ⟨h1, h2⟩
            exact ⟨h1, fun c' hc' => h2 c' (List.mem_cons_of_mem _ hc')⟩
      | some q =>
          obtain ⟨sp, so⟩ := q
          simp only [bestLoop, hf]
          by_cases hC : (acc.elim True fun p => sp > p.2) ∧ sp > so
          · rw [if_pos hC, ih]
            constructor
            · rintro ⟨h1, _⟩
              cases h1
            · rintro ⟨h1, h2⟩
              have := h2 c (List.mem_cons_self c rest) sp so hf
              exact absurd hC.2 (not_lt.mpr this)
          · rw [if_neg hC, ih]
            constructor
            · rintro ⟨h1, h2⟩
              subst h1
              refine ⟨rfl, fun c' hc' sp' so' hf' => ?_⟩
              rcases List.mem_cons.mp hc' with rfl | hmem
              · rw [hf] at hf'
                obtain ⟨h3, h4⟩ := Prod.mk.injEq .. ▸ Option.some.inj hf'
                subst h3; subst h4
                have : ¬ sp > so := fun hgt => hC ⟨trivial, hgt⟩
                exact not_lt.mp this
              · exact h2 c' hmem sp' so' hf'
            · rintro ⟨h1, h2⟩
              exact ⟨h1, fun c' hc' => h2 c' (List.mem_cons_of_mem _ hc')⟩

/-- When the loop returns a best candidate, that candidate comes from the list
(or the accumulator), strictly dominates its orthogonal score, and its primary
score is maximal among all dominating candidates. -/
lemma bestLoop_eq_some (f : List Char → Option (ℝ × ℝ)) :
    ∀ (l : List (List Char)) (acc : Option (List Char × ℝ)) (b : List Char) (s : ℝ),
      bestLoop f l acc = some (b, s) →
        (acc = some (b, s) ∨ (b ∈ l ∧ ∃ so, f b = some (s, so) ∧ s > so)) ∧
        (∀ c ∈ l, ∀ sp so, f c = some (sp, so) → sp > so → sp ≤ s) ∧
        (∀ p, acc = some p → p.2 ≤ s) := by
  intro l
  induction l with
  | nil =>
      intro acc b s h
      simp only [bestLoop] at h
      refine ⟨Or.inl h, fun c hc => absurd hc (List.not_mem_nil c), fun p hp => ?_⟩
      rw [hp] at h
      cases Option.some.inj h
      exact le_refl _
  | cons c rest ih =>
      intro acc b s h
      cases hf : f c with
      | none =>
          simp only [bestLoop, hf] at h
          obtain ⟨ho, hmax, hacc⟩ := ih acc b s h
          refine ⟨?_, ?_, hacc⟩
          · rcases ho with h1 | ⟨hb, hrest⟩
            · exact Or.inl h1
            · exact Or.inr ⟨List.mem_cons_of_mem _ hb, hrest⟩
          · intro c' hc' sp' so' hf' hq
            rcases List.mem_cons.mp hc' with rfl | hmem
            · rw [hf] at hf'; cases hf'
            · exact hmax c' hmem sp' so' hf' hq
      | some q =>
          obtain ⟨sp, so⟩ := q
          simp only [bestLoop, hf] at h
          by_cases hC : (acc.elim True fun p => sp > p.2) ∧ sp > so
          · rw [if_pos hC] at h
            obtain ⟨ho, hmax, hacc⟩ := ih (some (c, sp)) b s h
            have hsp_le : sp ≤ s := hacc (c, sp) rfl
            refine ⟨?_, ?_, ?_⟩
            · rcases ho with h1 | ⟨hb, hrest⟩
              · obtain ⟨h3, h4⟩ := Prod.mk.injEq .. ▸ Option.some.inj h1
                subst h3; subst h4
                exact Or.inr ⟨List.mem_cons_self c rest, so, hf, hC.2⟩
              · exact Or.inr ⟨List.mem_cons_of_mem _ hb, hrest⟩
            · intro c' hc' sp' so' hf' hq
              rcases List.mem_cons.mp hc' with rfl | hmem
              · rw [hf] at hf'
                obtain ⟨h3, h4⟩ := Prod.mk.injEq .. ▸ Option.some.inj hf'
                subst h3; subst h4
                exact hsp_le
              · exact hmax c' hmem sp' so' hf' hq
            · intro p hp
              have hgt : sp > p.2 := by rw [hp] at hC; exact hC.1
              exact le_trans hgt.le hsp_le
          · rw [if_neg hC] at h
            obtain ⟨ho, hmax, hacc⟩ := ih acc b s h
            refine ⟨?_, ?_, hacc⟩
            · rcases ho with h1 | ⟨hb, hrest⟩
              · exact Or.inl h1
              · exact Or.inr ⟨List.mem_cons_of_mem _ hb, hrest⟩
            · intro c' hc' sp' so' hf' hq
              rcases List.mem_cons.mp hc' with rfl | hmem
              · rw [hf] at hf'
                obtain ⟨h3, h4⟩ := Prod.mk.injEq .. ▸ Option.some.inj hf'
                subst h3; subst h4
                cases hacc0 : acc with
                | none =>
                    exfalso
                    exact hC ⟨by rw [hacc0]; trivial, hq⟩
                | some p =>
                    have hnot : ¬ sp > p.2 := fun hgt => hC ⟨by rw [hacc0]; exact hgt, hq⟩
                    exact le_trans (not_lt.mp hnot) (hacc p hacc0)
              · exact hmax c' hmem sp' so' hf' hq

/-- C3: navigation considers only the current piece's fixed adjacency set;
each candidate's primary score is the normalized move vector dotted with the
camera-relative primary axis (screenUp for w/s, camRight for a/d); candidates
whose orthogonal alignment is at least their primary score are rejected;
the returned candidate strictly dominates its orthogonal score, scores above
the 0.5 confidence threshold, and is maximal among qualifying candidates; and
no target is returned exactly when no qualifying candidate clears 0.5. -/
theorem getDirectionalTarget_spec (curName : List Char) (curPos : V3) (dir : Char)
    (camForward camUp fallbackRight : V3) (cands : List (List Char))
    (h : ADJACENCY_MAP.lookup curName = some cands) :
    (∀ b, getDirectionalTarget curName curPos dir camForward camUp fallbackRight
        = some b →
      b ∈ cands ∧ ∃ sp so,
        scoreOf curPos dir camForward camUp fallbackRight b = some (sp, so) ∧
        sp > so ∧ sp > 1 / 2 ∧
        ∀ c ∈ cands, ∀ sp' so',
          scoreOf curPos dir camForward camUp fallbackRight c = some (sp', so') →
          sp' > so' → sp' ≤ sp) ∧
    (getDirectionalTarget curName curPos dir camForward camUp fallbackRight
        = none ↔
      ∀ c ∈ cands, ∀ sp so,
        scoreOf curPos dir camForward camUp fallbackRight c = some (sp, so) →
        sp > so → sp ≤ 1 / 2) := by
  have hunfold : getDirectionalTarget curName curPos dir camForward camUp fallbackRight
      = match bestLoop (scoreOf curPos dir camForward camUp fallbackRight) cands none with
        | some (b, s) => if s > 1 / 2 then some b else none
        | none => none := by
    rw [getDirectionalTarget, h]
  constructor
  · intro b hb
    rw [hunfold] at hb
    cases hbl : bestLoop (scoreOf curPos dir camForward camUp fallbackRight) cands none with
    | none => rw [hbl] at hb; cases hb
    | some p =>
        obtain ⟨b', s⟩ := p
        rw [hbl] at hb
        dsimp only at hb
        by_cases hs : s > 1 / 2
        · rw [if_pos hs] at hb
          have hbe : b' = b := Option.some.inj hb
          rw [← hbe]
          obtain ⟨ho, hmax, _⟩ := bestLoop_eq_some _ cands none b' s hbl
          rcases ho with h1 | ⟨hmem, so, hsc, hdom⟩
          · cases h1
          · exact ⟨hmem, s, so, hsc, hdom, hs, fun c hc sp' so' hf' hq =>
              hmax c hc sp' so' hf' hq⟩
        · rw [if_neg hs] at hb; cases hb
  · rw [hunfold]
    cases hbl : bestLoop (scoreOf curPos dir camForward camUp fallbackRight) cands none with
    | none =>
        obtain ⟨_, hall⟩ := (bestLoop_eq_none_iff _ cands none).mp hbl
        simp only [true_iff]
        intro c hc sp so hf' hq
        exact absurd hq (not_lt.mpr (hall c hc sp so hf'))
    | some p =>
        obtain ⟨b', s⟩ := p
        dsimp only
        obtain ⟨ho, hmax, _⟩ := bestLoop_eq_some _ cands none b' s hbl
        rcases ho with h1 | ⟨hmem, so, hsc, hdom⟩
        · cases h1
        · by_cases hs : s > 1 / 2
          · rw [if_pos hs]
            constructor
            · intro hfalse; cases hfalse
            · intro hall
              have := hall b' hmem s so hsc hdom
              exact absurd hs (not_lt.mpr this)
          · rw [if_neg hs]
            constructor
            · intro _ c hc sp' so' hf' hq
              exact le_trans (hmax c hc sp' so' hf' hq) (not_lt.mp hs)
            · intro _; rfl

/-- Witness for C3: the UF edge with its two corner candidates (camera values
arbitrary; the characterization itself is what is instantiated). -/
theorem getDirectionalTarget_spec_witness :
    (∀ b, getDirectionalTarget ['U','F'] ⟨1, 2, 2⟩ 'w' ⟨0, 0, -1⟩ ⟨0, 1, 0⟩ ⟨1, 0, 0⟩
        = some b →
      b ∈ [['U','F','R'], ['U','L','F']] ∧ ∃ sp so,
        scoreOf ⟨1, 2, 2⟩ 'w' ⟨0, 0, -1⟩ ⟨0, 1, 0⟩ ⟨1, 0, 0⟩ b = some (sp, so) ∧
        sp > so ∧ sp > 1 / 2 ∧
        ∀ c ∈ [['U','F','R'], ['U','L','F']], ∀ sp' so',
          scoreOf ⟨1, 2, 2⟩ 'w' ⟨0, 0, -1⟩ ⟨0, 1, 0⟩ ⟨1, 0, 0⟩ c = some (sp', so') →
          sp' > so' → sp' ≤ sp) ∧
    (getDirectionalTarget ['U','F'] ⟨1, 2, 2⟩ 'w' ⟨0, 0, -1⟩ ⟨0, 1, 0⟩ ⟨1, 0, 0⟩
        = none ↔
      ∀ c ∈ [['U','F','R'], ['U','L','F']], ∀ sp so,
        scoreOf ⟨1, 2, 2⟩ 'w' ⟨0, 0, -1⟩ ⟨0, 1, 0⟩ ⟨1, 0, 0⟩ c = some (sp, so) →
        sp > so → sp ≤ 1 / 2) :=
  getDirectionalTarget_spec ['U','F'] ⟨1, 2, 2⟩ 'w' ⟨0, 0, -1⟩ ⟨0, 1, 0⟩ ⟨1, 0, 0⟩
    [['U','F','R'], ['U','L','F']] (by decide)

/-- The 27 scene cubies of the `Cube3D` constructor: name and grid position
(the 20 pieces, the 6 single-letter centers, and the hidden core ''). -/
def SCENE_CUBIES : List (List Char × V3) :=
  [(['D','L','B'], ⟨0, 0, 0⟩), (['D','L'], ⟨0, 0, 1⟩), (['D','F','L'], ⟨0, 0, 2⟩),
   (['B','L'], ⟨0, 1, 0⟩), (['L'], ⟨0, 1, 1⟩), (['F','L'], ⟨0, 1, 2⟩),
   (['U','B','L'], ⟨0, 2, 0⟩), (['U','L'], ⟨0, 2, 1⟩), (['U','L','F'], ⟨0, 2, 2⟩),
   (['D','B'], ⟨1, 0, 0⟩), (['D'], ⟨1, 0, 1⟩), (['D','F'], ⟨1, 0, 2⟩),
   (['B'], ⟨1, 1, 0⟩), ([], ⟨1, 1, 1⟩), (['F'], ⟨1, 1, 2⟩),
   (['U','B'], ⟨1, 2, 0⟩), (['U'], ⟨1, 2, 1⟩), (['U','F'], ⟨1, 2, 2⟩),
   (['D','B','R'], ⟨2, 0, 0⟩), (['D','R'], ⟨2, 0, 1⟩), (['D','R','F'], ⟨2, 0, 2⟩),
   (['B','R'], ⟨2, 1, 0⟩), (['R'], ⟨2, 1, 1⟩), (['F','R'], ⟨2, 1, 2⟩),
   (['U','R','B'], ⟨2, 2, 0⟩), (['U','R'], ⟨2, 2, 1⟩), (['U','F','R'], ⟨2, 2, 2⟩)]

/-- `Cube3D.isCenterName`: only 2- and 3-letter names are real pieces. -/
def isCenterName (name : List Char) : Bool :=
  name.length != 2 && name.length != 3

/-- The model of the `Cube3D` instance state that navigation touches. -/
structure Cube3DState where
  selectionVisible : Bool
  selectionPos : V3
  camForward : V3
  camUp : V3
  fallbackRight : V3
  permutation : List ℤ
  orientation : List ℤ

/-- The selected-cubie lookup of `navigateWASD`: the first scene cubie whose
position equals the selection highlight's position. -/
def findCubie (pos : V3) : Option (List Char) :=
  (SCENE_CUBIES.find? fun q => decide (q.2 = pos)).map fun q => q.1

/-- The selection-state effect of `initPicker(cubie)` (no `keepSelection`):
centers move the highlight; re-clicking the selected cubie deselects;
otherwise the highlight moves to the cubie.  The permutation and orientation
fields are not touched by selection itself. -/
def initPickerSelect (st : Cube3DState) (name : List Char) (pos : V3) :
    Cube3DState :=
  if isCenterName name then
    { st with selectionPos := pos, selectionVisible := true }
  else if pos = st.selectionPos then
    { st with selectionPos := ⟨0, 0, 0⟩, selectionVisible := false }
  else
    { st with selectionPos := pos, selectionVisible := true }

/-- `Cube3D.navigateWASD`: resolve the selected cubie, consult the adjacency
map, ask `getDirectionalTarget` for a target, and select it; every failure
path returns the state unchanged (a total function — no exception paths). -/
def navigateWASD (st : Cube3DState) (dir : Char) : Cube3DState :=
  if st.selectionVisible = false then st
  else
    match findCubie st.selectionPos with
    | none => st
    | some cur =>
        if isCenterName cur then st
        else
          match ADJACENCY_MAP.lookup cur with
          | none => st
          | some adj =>
              if adj.isEmpty then st
              else
                match getDirectionalTarget cur st.selectionPos dir
                    st.camForward st.camUp st.fallbackRight with
                | none => st
                | some target =>
                    match SCENE_CUBIES.find? fun q => q.1 == target with
                    | none => st
                    | some tq => initPickerSelect st tq.1 tq.2

/-- C8: with no piece selected, or when no adjacent piece resolves confidently
in the requested direction, directional navigation is a silent no-op: it
returns no target and leaves the permutation array, the orientation array and
the selection exactly as they were. -/
theorem navigateWASD_noop (st : Cube3DState) (dir : Char)
    (h : st.selectionVisible = false ∨
         ∀ cur, findCubie st.selectionPos = some cur →
           getDirectionalTarget cur st.selectionPos dir
             st.camForward st.camUp st.fallbackRight = none) :
    navigateWASD st dir = st := by
  rcases h with h | h
  · rw [navigateWASD, if_pos h]
  · rw [navigateWASD]
    by_cases hv : st.selectionVisible = false
    · rw [if_pos hv]
    · rw [if_neg hv]
      cases hfind : findCubie st.selectionPos with
      | none => rfl
      | some cur =>
          dsimp only
          by_cases hc : isCenterName cur
          · rw [if_pos hc]
          · rw [if_neg hc]
            cases hadj : ADJACENCY_MAP.lookup cur with
            | none => rfl
            | some adj =>
                dsimp only
                by_cases he : adj.isEmpty
                · rw [if_pos he]
                · rw [if_neg he]
                  rw [h cur hfind]

/-- Witness for C8: a state with nothing selected is left untouched. -/
theorem navigateWASD_noop_witness :
    navigateWASD
      ⟨false, ⟨0, 0, 0⟩, ⟨0, 0, -1⟩, ⟨0, 1, 0⟩, ⟨1, 0, 0⟩, [], []⟩ 'w'
      = ⟨false, ⟨0, 0, 0⟩, ⟨0, 0, -1⟩, ⟨0, 1, 0⟩, ⟨1, 0, 0⟩, [], []⟩ :=
  navigateWASD_noop
    ⟨false, ⟨0, 0, 0⟩, ⟨0, 0, -1⟩, ⟨0, 1, 0⟩, ⟨1, 0, 0⟩, [], []⟩ 'w'
    (Or.inl rfl)

end Navigation

end Cuble
